import Mathlib

/-!
Verification development for the Bluefors-DC measurement orchestration core.

The definitions below are shallow embeddings of the Python source of the
repository (package bluefors_dc).  Measured values, setpoints and safety
limits are modelled as rationals; the IEEE-754 special values produced by
Python/numpy float division are modelled explicitly by the type FVal.
Each definition carries a reference to the source function it embeds.
-/

namespace BlueforsDC

/-- Extended value produced by Python/numpy float arithmetic: a finite value
(modelled as a rational), positive infinity, negative infinity, or NaN. -/
inductive FVal where
  | num (q : ℚ)
  | pinf
  | ninf
  | nan
  deriving DecidableEq, Repr

/-- IEEE-754 division of two finite values, as performed elementwise by numpy
array division and by Python-float/numpy-scalar division: a nonzero divisor
gives the exact quotient, a zero divisor gives a signed infinity for a nonzero
dividend and NaN for dividend zero.  No exception is raised (numpy emits a
RuntimeWarning, which is not an exception). -/
def fdiv (a b : ℚ) : FVal :=
  if b ≠ 0 then .num (a / b)
  else if 0 < a then .pinf
  else if a < 0 then .ninf
  else .nan

/-- Derived resistance array of IVMeasurement.run_sweep
(src/bluefors_dc/measurements/iv_measurements.py, line 115):
np.array(voltages) / np.array(currents), elementwise IEEE division. -/
def resistances (voltages currents : List ℚ) : List FVal :=
  List.zipWith fdiv voltages currents

/-- Differential conductance of DifferentialConductance.run_sweep
(src/bluefors_dc/measurements/differential_measurements.py, line 156):
ac_amplitude / ac_r_avg if ac_r_avg != 0 else 0. -/
def diff_conductance (ac_amplitude ac_r_avg : ℚ) : ℚ :=
  if ac_r_avg ≠ 0 then ac_amplitude / ac_r_avg else 0

/-- Differential resistance of DifferentialConductance.run_sweep
(differential_measurements.py, line 157):
ac_r_avg / ac_amplitude if ac_amplitude != 0 else np.inf. -/
def diff_resistance (ac_amplitude ac_r_avg : ℚ) : FVal :=
  if ac_amplitude ≠ 0 then .num (ac_r_avg / ac_amplitude) else .pinf

/-- DC resistance of DifferentialConductance.run_sweep
(differential_measurements.py, line 160):
voltage / dc_current_avg if dc_current_avg != 0 else np.inf. -/
def dc_resistance (voltage dc_current_avg : ℚ) : FVal :=
  if dc_current_avg ≠ 0 then .num (voltage / dc_current_avg) else .pinf

/-- Fundamental-harmonic conductance of
HarmonicDifferentialMeasurement.run_harmonic_sweep
(differential_measurements.py, line 520):
params.ac_amplitude / np.sqrt(fund_x_avg**2 + fund_y_avg**2), with no guard
on the divisor.  The argument denom is the computed float value of the square
root; np.sqrt returns exactly 0 iff both averaged quadratures are 0, so the
zero-divisor behaviour of the source is captured exactly by fdiv at denom = 0. -/
def fund_conductance (ac_amplitude denom : ℚ) : FVal :=
  fdiv ac_amplitude denom

/-- Safety limits record of SafetyChecks (src/bluefors_dc/utils/safety.py,
lines 19-28). -/
structure SafetyLimits where
  max_magnetic_field : ℚ
  max_field_ramp_rate : ℚ
  max_current : ℚ
  max_voltage : ℚ
  max_temperature : ℚ
  min_temperature : ℚ
  max_temperature_ramp_rate : ℚ
  max_heater_power : ℚ
  deriving DecidableEq, Repr

/-- The conservative default limits of SafetyChecks.DEFAULT_LIMITS
(safety.py, lines 19-28). -/
def DEFAULT_LIMITS : SafetyLimits :=
  { max_magnetic_field := 9
    max_field_ramp_rate := 1
    max_current := 1/10
    max_voltage := 200
    max_temperature := 400
    min_temperature := 1/100
    max_temperature_ramp_rate := 5
    max_heater_power := 100 }

/-- SafetyChecks.check_magnetic_field (safety.py, lines 41-61).  The source
compares np.sqrt(fx**2 + fy**2 + fz**2) against max_magnetic_field and returns
False exactly when the magnitude exceeds the limit.  Because the limit is
nonnegative, comparing the squared magnitude against the squared limit is
equivalent and keeps the definition executable over the rationals; the
equivalence with the square-root formulation over the reals is proved in the
theorem for claim C6. -/
def check_magnetic_field (L : SafetyLimits) (field_x field_y field_z : ℚ) : Bool :=
  if field_x ^ 2 + field_y ^ 2 + field_z ^ 2 > L.max_magnetic_field ^ 2 then false
  else true

/-- SafetyChecks.check_field_ramp_rate (safety.py, lines 63-78).  The source
compares the signed ramp_rate, not its absolute value. -/
def check_field_ramp_rate (L : SafetyLimits) (ramp_rate : ℚ) : Bool :=
  if ramp_rate > L.max_field_ramp_rate then false else true

/-- SafetyChecks.check_current (safety.py, lines 80-95): compares abs(current)
against max_current. -/
def check_current (L : SafetyLimits) (current : ℚ) : Bool :=
  if |current| > L.max_current then false else true

/-- SafetyChecks.check_voltage (safety.py, lines 97-112): compares abs(voltage)
against max_voltage. -/
def check_voltage (L : SafetyLimits) (voltage : ℚ) : Bool :=
  if |voltage| > L.max_voltage then false else true

/-- SafetyChecks.check_temperature (safety.py, lines 114-134): compares the
signed temperature against both the maximum and the minimum limit. -/
def check_temperature (L : SafetyLimits) (temperature : ℚ) : Bool :=
  if temperature > L.max_temperature then false
  else if temperature < L.min_temperature then false
  else true

/-- SafetyChecks.check_temperature_ramp_rate (safety.py, lines 136-151).  As
for the field ramp rate, the source compares the signed value, with no abs. -/
def check_temperature_ramp_rate (L : SafetyLimits) (ramp_rate : ℚ) : Bool :=
  if ramp_rate > L.max_temperature_ramp_rate then false else true

/-- Composite sweep descriptor consumed by SafetyChecks.check_sweep_parameters:
each of the four recognised ranges may be absent from the dictionary. -/
structure SweepParams where
  current_range : Option (ℚ × ℚ)
  voltage_range : Option (ℚ × ℚ)
  field_range : Option (ℚ × ℚ)
  temperature_range : Option (ℚ × ℚ)
  deriving DecidableEq, Repr

/-- SafetyChecks.check_sweep_parameters (safety.py, lines 153-190): starts from
safe = True, and for each range present checks both endpoints with the
per-kind scalar check, clearing safe on failure; the field endpoints are
checked through check_magnetic_field with the endpoint as the x component
(max endpoint first, then min).  Returns the final flag, never raising. -/
def check_sweep_parameters (L : SafetyLimits) (p : SweepParams) : Bool :=
  let safe := true
  let safe := match p.current_range with
    | some (cmin, cmax) =>
        if !(check_current L cmin && check_current L cmax) then false else safe
    | none => safe
  let safe := match p.voltage_range with
    | some (vmin, vmax) =>
        if !(check_voltage L vmin && check_voltage L vmax) then false else safe
    | none => safe
  let safe := match p.field_range with
    | some (fmin, fmax) =>
        if !(check_magnetic_field L fmax 0 0 && check_magnetic_field L fmin 0 0) then false
        else safe
    | none => safe
  let safe := match p.temperature_range with
    | some (tmin, tmax) =>
        if !(check_temperature L tmin && check_temperature L tmax) then false else safe
    | none => safe
  safe

/-- np.linspace(start, stop, n): n values evenly spaced from start to stop
inclusive, element i being start + (stop - start) * i / (n - 1).  Over the
rationals the final element equals stop exactly for n ≥ 2, matching numpy,
which sets the last element to stop exactly. -/
def linspace (start stop : ℚ) (n : ℕ) : List ℚ :=
  (List.range n).map (fun i : ℕ => start + (stop - start) * (i : ℚ) / ((n : ℚ) - 1))

/-- Sweep point sequence of IVMeasurement.run_sweep (iv_measurements.py,
lines 70-75) and DifferentialConductance.run_sweep
(differential_measurements.py, lines 73-77): the linspace forward ramp,
followed, when bidirectional, by its exact reverse
(np.concatenate([points, points[::-1]])). -/
def sweep_points (start stop : ℚ) (n : ℕ) (bidirectional : Bool) : List ℚ :=
  let forward := linspace start stop n
  if bidirectional then forward ++ forward.reverse else forward

/-- Lakeshore372.wait_for_temperature (src/bluefors_dc/instruments/lakeshore.py,
lines 244-274): polls the loop input temperature once per check_interval while
the elapsed time is below the timeout; returns True the first time
abs(current_temp - target) <= tolerance, and returns False (a value, not an
exception) when the timeout budget is exhausted.  Time is discretised: fuel is
the number of poll iterations the timeout budget allows, and readings j is the
temperature read at the j-th poll. -/
def wait_for_temperature (readings : ℕ → ℚ) (target tolerance : ℚ) :
    ℕ → ℕ → Bool
  | 0, _ => false
  | fuel + 1, i =>
      if |readings i - target| ≤ tolerance then true
      else wait_for_temperature readings target tolerance fuel (i + 1)

/-- AMI430MagnetController.wait_for_ramp_completion
(src/bluefors_dc/instruments/ami430.py, lines 156-170): polls magnet_status
once per second while the elapsed time is below the timeout; breaks out as
soon as the status contains HOLDING, and otherwise the while-else clause
raises TimeoutError.  The raise is modelled as Except.error; holding j is
whether the j-th polled status string contains HOLDING (after upper-casing). -/
def wait_for_ramp_completion (holding : ℕ → Bool) : ℕ → ℕ → Except Unit Unit
  | 0, _ => .error ()
  | fuel + 1, i =>
      if holding i then .ok ()
      else wait_for_ramp_completion holding fuel (i + 1)

/-- State of the swept source instrument: the commanded setpoint and whether
the output is enabled. -/
structure SourceState where
  setpoint : ℚ
  output_on : Bool
  deriving DecidableEq, Repr

/-- Commanding a new setpoint (self.current_source.current(c), or the SMU
voltage parameter for the differential sweep). -/
def set_setpoint (s : SourceState) (c : ℚ) : SourceState :=
  { s with setpoint := c }

/-- Enabling or disabling the source output (self.current_source.output). -/
def set_output (s : SourceState) (b : Bool) : SourceState :=
  { s with output_on := b }

/-- Result of one sweep run: the samples recorded, whether an exception
propagated out of the per-point loop, and the source state on exit. -/
structure SweepRun (α : Type) where
  recorded : List α
  raised : Bool
  final : SourceState
  deriving Repr

/-- The per-point try-block loop of IVMeasurement.run_sweep
(iv_measurements.py, lines 93-105): for each commanded current the setpoint is
written, then the voltage is read; a hardware error during the read (modelled
by readV returning Except.error) aborts the loop with the samples accumulated
so far, while a successful read appends the pair (current, voltage).  readV k
is the outcome of the voltage read at the k-th point of the run. -/
def sweep_loop (readV : ℕ → Except Unit ℚ) :
    List ℚ → ℕ → List (ℚ × ℚ) → SourceState →
    List (ℚ × ℚ) × Bool × SourceState
  | [], _, acc, s => (acc, false, s)
  | c :: rest, k, acc, s =>
      let s' := set_setpoint s c
      match readV k with
      | .error _ => (acc, true, s')
      | .ok v => sweep_loop readV rest (k + 1) (acc ++ [(c, v)]) s'

/-- IVMeasurement.run_sweep (iv_measurements.py, lines 87-110), state and
control flow: output is enabled once before the loop, the per-point loop runs
inside a try block, and the finally block zeroes the setpoint and disables the
output on every exit path (normal completion or a propagating error). -/
def run_sweep (points : List ℚ) (readV : ℕ → Except Unit ℚ) (s0 : SourceState) :
    SweepRun (ℚ × ℚ) :=
  let s1 := set_output s0 true
  let r := sweep_loop readV points 0 [] s1
  { recorded := r.1
    raised := r.2.1
    final := set_output (set_setpoint r.2.2 0) false }

/-- One repetition of the averaged per-point measurement of
DifferentialConductance.run_sweep (differential_measurements.py,
lines 133-144): the DC current read plus the lock-in x, y, r and phase
readings of that repetition. -/
structure RepData where
  dc : ℚ
  x : ℚ
  y : ℚ
  r : ℚ
  phase : ℚ
  deriving DecidableEq, Repr

/-- The inner averaging loop (differential_measurements.py, lines 133-144):
n repetitions are collected in order; a hardware error at any repetition
propagates immediately, so a failing point contributes no sample at all. -/
def collect_reps (reads : ℕ → Except Unit RepData) : ℕ → ℕ → Except Unit (List RepData)
  | 0, _ => .ok []
  | n + 1, j =>
      match reads j with
      | .error e => .error e
      | .ok d => (collect_reps reads n (j + 1)).map (fun tl => d :: tl)

/-- Arithmetic mean of a list, as np.mean / the running-sum average of the
source. -/
def mean (l : List ℚ) : ℚ := l.sum / l.length

/-- One recorded sample of DifferentialConductance.run_sweep
(differential_measurements.py, lines 170-179). -/
structure DiffSample where
  voltage : ℚ
  current : ℚ
  resistance : FVal
  diff_voltage_x : ℚ
  diff_voltage_y : ℚ
  diff_voltage_r : ℚ
  diff_voltage_phase : ℚ
  conductance : ℚ
  dv_di : FVal
  deriving DecidableEq, Repr

/-- Averaging and derived quantities of one point of
DifferentialConductance.run_sweep (differential_measurements.py,
lines 146-160): channel-wise arithmetic means of the repetitions, then the
guarded derived quantities diff_conductance, diff_resistance and
dc_resistance. -/
def make_sample (ac_amplitude voltage : ℚ) (reps : List RepData) : DiffSample :=
  let dc_avg := mean (reps.map RepData.dc)
  let r_avg := mean (reps.map RepData.r)
  { voltage := voltage
    current := dc_avg
    resistance := dc_resistance voltage dc_avg
    diff_voltage_x := mean (reps.map RepData.x)
    diff_voltage_y := mean (reps.map RepData.y)
    diff_voltage_r := r_avg
    diff_voltage_phase := mean (reps.map RepData.phase)
    conductance := diff_conductance ac_amplitude r_avg
    dv_di := diff_resistance ac_amplitude r_avg }

/-- The per-point try-block loop of DifferentialConductance.run_sweep
(differential_measurements.py, lines 115-179): per point, the DC bias voltage
is written, the averaging loop collects the repetitions, and only after all
repetitions succeed is the sample appended; a hardware error inside the
averaging loop aborts the sweep with the samples accumulated so far.
reads k j is the outcome of the j-th repetition of the k-th point. -/
def diff_sweep_loop (ac_amplitude : ℚ) (averages : ℕ)
    (reads : ℕ → ℕ → Except Unit RepData) :
    List ℚ → ℕ → List DiffSample → SourceState →
    List DiffSample × Bool × SourceState
  | [], _, acc, s => (acc, false, s)
  | v :: rest, k, acc, s =>
      let s' := set_setpoint s v
      match collect_reps (reads k) averages 0 with
      | .error _ => (acc, true, s')
      | .ok reps =>
          diff_sweep_loop ac_amplitude averages reads rest (k + 1)
            (acc ++ [make_sample ac_amplitude v reps]) s'

/-- DifferentialConductance.run_sweep (differential_measurements.py,
lines 111-184), state and control flow: output enabled once before the loop,
per-point loop in a try block, and a finally block that zeroes the DC bias
setpoint and disables the output on every exit path. -/
def run_diff_sweep (ac_amplitude : ℚ) (averages : ℕ) (points : List ℚ)
    (reads : ℕ → ℕ → Except Unit RepData) (s0 : SourceState) :
    SweepRun DiffSample :=
  let s1 := set_output s0 true
  let r := diff_sweep_loop ac_amplitude averages reads points 0 [] s1
  { recorded := r.1
    raised := r.2.1
    final := set_output (set_setpoint r.2.2 0) false }

/-- Observable state of RealTimeMonitoring
(src/bluefors_dc/measurements/transport_measurements.py): the monitoring flag,
the number of worker threads ever started, and the number of instrument
configuration actions (current amplitude write plus output ON) performed. -/
structure MonitorState where
  monitoring : Bool
  worker_starts : ℕ
  configured : ℕ
  deriving DecidableEq, Repr

/-- RealTimeMonitoring.start_monitoring (transport_measurements.py,
lines 366-381 and onward): if monitoring is already running, print a warning
and return without touching instruments or threads; otherwise set the flag,
configure the current source and start exactly one worker thread. -/
def start_monitoring (s : MonitorState) : MonitorState :=
  if s.monitoring then s
  else
    { monitoring := true
      worker_starts := s.worker_starts + 1
      configured := s.configured + 1 }

/-- Commands the AMI430 driver sends to the magnet hardware. -/
inductive MagnetCmd where
  | setX (v : ℚ)
  | setY (v : ℚ)
  | ramp
  deriving DecidableEq, Repr

/-- AMI430MagnetController.set_field_vector (ami430.py, lines 117-138):
computes the magnitude sqrt(field_x**2 + field_y**2) and raises ValueError
when it exceeds field_limit, BEFORE the writes to field_x, field_y and the
RAMP command; otherwise issues those three commands in order.  The raise is
modelled as Except.error together with the (empty) command list issued up to
that point; the magnitude comparison is expressed on squares, equivalent for
the nonnegative field_limit, and bridged to the square-root formulation in
the theorem for claim C10.  The wait_for_completion flag only adds a
subsequent wait_for_ramp_completion call and issues no further hardware
write, so it is omitted here. -/
def set_field_vector (field_limit field_x field_y : ℚ) :
    List MagnetCmd × Except Unit Unit :=
  if field_x ^ 2 + field_y ^ 2 > field_limit ^ 2 then ([], .error ())
  else ([.setX field_x, .setY field_y, .ramp], .ok ())

/-! Helper lemmas. -/

/-- Element access used in the sweep-sequence claims: element i of the list,
defaulting to 0 out of range. -/
def nth (l : List ℚ) (i : ℕ) : ℚ := (l[i]?).getD 0

lemma length_linspace (a b : ℚ) (n : ℕ) : (linspace a b n).length = n := by
  rw [linspace, List.length_map, List.length_range]

lemma nth_linspace (a b : ℚ) {n i : ℕ} (h : i < n) :
    nth (linspace a b n) i = a + (b - a) * i / ((n : ℚ) - 1) := by
  rw [nth, linspace, List.getElem?_map, List.getElem?_range h]
  rfl

lemma nth_append_left (l₁ l₂ : List ℚ) (i : ℕ) (h : i < l₁.length) :
    nth (l₁ ++ l₂) i = nth l₁ i := by
  rw [nth, nth, List.getElem?_append_left h]

lemma nth_append_right (l₁ l₂ : List ℚ) (i : ℕ) (h : l₁.length ≤ i) :
    nth (l₁ ++ l₂) i = nth l₂ (i - l₁.length) := by
  rw [nth, nth, List.getElem?_append_right h]

lemma nth_reverse (l : List ℚ) (i : ℕ) (h : i < l.length) :
    nth l.reverse i = nth l (l.length - 1 - i) := by
  rw [nth, nth, List.getElem?_reverse h]

/-! Theorems for the claims. -/

/-- C4: for every SweepSpec with numPoints ≥ 2 and bidirectional = true, the
generated point sequence has length 2 × numPoints, element numPoints − 1
equals element numPoints (the turnaround point is duplicated), and element 0
equals element 2 × numPoints − 1 (the forward linear ramp is immediately
followed by its exact reverse). -/
theorem C4_bidirectional_palindrome (a b : ℚ) (n : ℕ) (h : 2 ≤ n) :
    (sweep_points a b n true).length = 2 * n ∧
    nth (sweep_points a b n true) (n - 1) = nth (sweep_points a b n true) n ∧
    nth (sweep_points a b n true) 0 = nth (sweep_points a b n true) (2 * n - 1) := by
  have hfl : (linspace a b n).length = n := length_linspace a b n
  have hs : sweep_points a b n true = linspace a b n ++ (linspace a b n).reverse := by
    rw [sweep_points]
    rfl
  refine ⟨?_, ?_, ?_⟩
  · rw [hs, List.length_append, List.length_reverse, hfl]
    omega
  · rw [hs, nth_append_left _ _ _ (by omega),
      nth_append_right _ _ _ (by omega),
      nth_reverse _ _ (by omega), hfl]
    congr 1
    omega
  · rw [hs, nth_append_left _ _ _ (by omega),
      nth_append_right _ _ _ (by omega),
      nth_reverse _ _ (by omega), hfl]
    congr 1
    omega

/-- Witness for C4 at a concrete sweep: start 0, stop 3, 4 points. -/
theorem C4_bidirectional_palindrome_witness :
    2 ≤ 4 ∧
    (sweep_points 0 3 4 true).length = 2 * 4 ∧
    nth (sweep_points 0 3 4 true) 3 = nth (sweep_points 0 3 4 true) 4 ∧
    nth (sweep_points 0 3 4 true) 0 = nth (sweep_points 0 3 4 true) (2 * 4 - 1) :=
  ⟨by omega, C4_bidirectional_palindrome 0 3 4 (by omega)⟩

/-- C8: for every SweepSpec with numPoints ≥ 2 and bidirectional = false, the
generated sequence has exactly numPoints elements, its first element is start
and its last is stop exactly, and consecutive elements differ by the constant
step (stop − start) / (numPoints − 1). -/
theorem C8_unidirectional_spacing (a b : ℚ) (n : ℕ) (h : 2 ≤ n) :
    (sweep_points a b n false).length = n ∧
    nth (sweep_points a b n false) 0 = a ∧
    nth (sweep_points a b n false) (n - 1) = b ∧
    ∀ i, i + 1 < n →
      nth (sweep_points a b n false) (i + 1) - nth (sweep_points a b n false) i =
        (b - a) / ((n : ℚ) - 1) := by
  have hs : sweep_points a b n false = linspace a b n := by
    rw [sweep_points]
    rfl
  have hn1 : ((n : ℚ) - 1) ≠ 0 := by
    have h2 : (2 : ℚ) ≤ (n : ℚ) := by exact_mod_cast h
    intro habs
    nlinarith
  refine ⟨?_, ?_, ?_, ?_⟩
  · rw [hs, length_linspace]
  · rw [hs, nth_linspace a b (by omega : 0 < n)]
    push_cast
    ring
  · rw [hs, nth_linspace a b (by omega : n - 1 < n)]
    have hc : ((n - 1 : ℕ) : ℚ) = (n : ℚ) - 1 := by
      have h1 : 1 ≤ n := by omega
      push_cast [Nat.cast_sub h1]
      ring
    rw [hc]
    field_simp
  · intro i hi
    rw [hs, nth_linspace a b hi, nth_linspace a b (by omega : i < n)]
    push_cast
    field_simp
    ring

/-- Witness for C8 at a concrete sweep: start 1, stop 5, 3 points. -/
theorem C8_unidirectional_spacing_witness :
    2 ≤ 3 ∧
    ((sweep_points 1 5 3 false).length = 3 ∧
      nth (sweep_points 1 5 3 false) 0 = 1 ∧
      nth (sweep_points 1 5 3 false) (3 - 1) = 5 ∧
      ∀ i, i + 1 < 3 →
        nth (sweep_points 1 5 3 false) (i + 1) - nth (sweep_points 1 5 3 false) i =
          (5 - 1) / ((3 : ℚ) - 1)) :=
  ⟨by omega, C8_unidirectional_spacing 1 5 3 (by omega)⟩

/-- C5 counterexample: the claim asserts every scalar kind, including the
field ramp rate, is checked through abs(value); but check_field_ramp_rate
compares the signed value, so the ramp rate −5 T/min passes the check even
though its absolute value exceeds the 1 T/min limit. -/
theorem C5_counterexample :
    ¬ (check_field_ramp_rate DEFAULT_LIMITS (-5) = false ↔
        |(-5 : ℚ)| > DEFAULT_LIMITS.max_field_ramp_rate) := by
  intro hiff
  have h2 : |(-5 : ℚ)| > DEFAULT_LIMITS.max_field_ramp_rate := by
    norm_num [DEFAULT_LIMITS]
  have h1 : check_field_ramp_rate DEFAULT_LIMITS (-5) = false := hiff.mpr h2
  rw [check_field_ramp_rate] at h1
  norm_num [DEFAULT_LIMITS] at h1

/-- C5 amended: current, voltage and field-component checks compare the
absolute value against the limit; the field and temperature ramp-rate checks
compare the signed value (so arbitrarily negative ramp rates pass);
temperature is compared as-is against both a minimum and a maximum limit. -/
theorem C5_scalar_check_semantics (v : ℚ) :
    (check_current DEFAULT_LIMITS v = false ↔ |v| > DEFAULT_LIMITS.max_current) ∧
    (check_voltage DEFAULT_LIMITS v = false ↔ |v| > DEFAULT_LIMITS.max_voltage) ∧
    (check_magnetic_field DEFAULT_LIMITS v 0 0 = false ↔
      |v| > DEFAULT_LIMITS.max_magnetic_field) ∧
    (check_field_ramp_rate DEFAULT_LIMITS v = false ↔
      v > DEFAULT_LIMITS.max_field_ramp_rate) ∧
    (check_temperature_ramp_rate DEFAULT_LIMITS v = false ↔
      v > DEFAULT_LIMITS.max_temperature_ramp_rate) ∧
    (check_temperature DEFAULT_LIMITS v = false ↔
      (v > DEFAULT_LIMITS.max_temperature ∨ v < DEFAULT_LIMITS.min_temperature)) := by
  refine ⟨?_, ?_, ?_, ?_, ?_, ?_⟩
  · rw [check_current]
    split_ifs with hc <;> simp [hc]
  · rw [check_voltage]
    split_ifs with hc <;> simp [hc]
  · have hmf : DEFAULT_LIMITS.max_magnetic_field = 9 := rfl
    rw [check_magnetic_field, hmf]
    have hiff : v ^ 2 + 0 ^ 2 + 0 ^ 2 > (9 : ℚ) ^ 2 ↔ |v| > 9 := by
      constructor
      · intro hgt
        nlinarith [abs_nonneg v, sq_abs v]
      · intro hgt
        nlinarith [sq_abs v]
    split_ifs with hc
    · simp only [true_iff]
      exact hiff.mp hc
    · simp only [Bool.true_eq_false, false_iff]
      intro habs
      exact hc (hiff.mpr habs)
  · rw [check_field_ramp_rate]
    split_ifs with hc <;> simp [hc]
  · rw [check_temperature_ramp_rate]
    split_ifs with hc <;> simp [hc]
  · rw [check_temperature]
    split_ifs with h1 h2
    · simp only [true_iff]
      exact Or.inl h1
    · simp only [true_iff]
      exact Or.inr h2
    · simp only [Bool.true_eq_false, false_iff]
      rintro (hc | hc)
      · exact h1 hc
      · exact h2 hc

/-- C6: check_magnetic_field returns false exactly when the field magnitude
sqrt(fx² + fy²) exceeds max_magnetic_field; under the default limit 9.0 the
vector (1, 1) passes and (10, 10) fails. -/
theorem C6_field_vector_check :
    (∀ fx fy : ℚ,
        check_magnetic_field DEFAULT_LIMITS fx fy 0 = false ↔
          Real.sqrt (((fx ^ 2 + fy ^ 2 : ℚ) : ℝ)) > 9) ∧
    check_magnetic_field DEFAULT_LIMITS 1 1 0 = true ∧
    check_magnetic_field DEFAULT_LIMITS 10 10 0 = false := by
  refine ⟨?_, by norm_num [check_magnetic_field, DEFAULT_LIMITS],
    by norm_num [check_magnetic_field, DEFAULT_LIMITS]⟩
  intro fx fy
  have hmf : DEFAULT_LIMITS.max_magnetic_field = 9 := rfl
  have hb : check_magnetic_field DEFAULT_LIMITS fx fy 0 = false ↔
      fx ^ 2 + fy ^ 2 > (81 : ℚ) := by
    rw [check_magnetic_field, hmf]
    split_ifs with hc
    · simp only [true_iff]
      nlinarith
    · simp only [Bool.true_eq_false, false_iff]
      intro habs
      apply hc
      nlinarith
  have hcast : ((9 : ℝ) ^ 2 < ((fx ^ 2 + fy ^ 2 : ℚ) : ℝ)) ↔ fx ^ 2 + fy ^ 2 > (81 : ℚ) := by
    rw [show ((9 : ℝ) ^ 2) = (((81 : ℚ) : ℝ)) by norm_num]
    exact ⟨fun h => by exact_mod_cast h, fun h => by exact_mod_cast h⟩
  rw [hb]
  constructor
  · intro h
    exact (Real.lt_sqrt (by norm_num : (0 : ℝ) ≤ 9)).mpr (hcast.mpr h)
  · intro h
    exact hcast.mp ((Real.lt_sqrt (by norm_num : (0 : ℝ) ≤ 9)).mp h)

/-- C7: check_sweep_parameters returns true exactly when both endpoints of
every range present pass their per-kind scalar check (the field endpoints
being checked as x components of the vector check); being a total Boolean
function, it reports failure by returning false, never by raising. -/
theorem C7_sweep_parameter_check (L : SafetyLimits) (p : SweepParams) :
    check_sweep_parameters L p = true ↔
      ((∀ a b, p.current_range = some (a, b) →
          check_current L a = true ∧ check_current L b = true) ∧
       (∀ a b, p.voltage_range = some (a, b) →
          check_voltage L a = true ∧ check_voltage L b = true) ∧
       (∀ a b, p.field_range = some (a, b) →
          check_magnetic_field L b 0 0 = true ∧ check_magnetic_field L a 0 0 = true) ∧
       (∀ a b, p.temperature_range = some (a, b) →
          check_temperature L a = true ∧ check_temperature L b = true)) := by
  obtain ⟨cr, vr, fr, tr⟩ := p
  rcases cr with _ | ⟨ca, cb⟩ <;> rcases vr with _ | ⟨va, vb⟩ <;>
    rcases fr with _ | ⟨fa, fb⟩ <;> rcases tr with _ | ⟨ta, tb⟩ <;>
    simp [check_sweep_parameters, Bool.and_eq_true, and_assoc] <;> tauto

/-- C1 counterexample: the claim asserts the derived resistance at current 0
is +∞ and never NaN, and that the harmonic conductance resolves a zero
denominator to 0.  On the code, the elementwise numpy division of
IVMeasurement.run_sweep gives NaN at voltage 0 / current 0 and −∞ at negative
voltage / current 0, and the unguarded fundamental-harmonic conductance gives
+∞, not 0, at a zero denominator. -/
theorem C1_counterexample :
    resistances [0] [0] = [FVal.nan] ∧ FVal.nan ≠ FVal.pinf ∧
    resistances [-1] [0] = [FVal.ninf] ∧ FVal.ninf ≠ FVal.pinf ∧
    fund_conductance (1/1000) 0 = FVal.pinf ∧ FVal.pinf ≠ FVal.num 0 := by
  refine ⟨?_, by simp, ?_, by simp, ?_, by simp⟩
  · norm_num [resistances, fdiv]
  · norm_num [resistances, fdiv]
  · norm_num [fund_conductance, fdiv]

/-- C1 amended: the derived resistance of run_sweep is elementwise IEEE
division voltage/current, total and exception-free: a nonzero current gives
the exact quotient, current 0 gives +∞ for positive voltage, −∞ for negative
voltage and NaN for voltage 0.  The guarded conductance of
DifferentialConductance.run_sweep resolves a zero denominator to 0 (and its
guarded reciprocals to +∞), while the unguarded fundamental-harmonic
conductance of run_harmonic_sweep gives +∞ at a zero denominator for a
positive AC amplitude. -/
theorem C1_division_semantics :
    (∀ v i : ℚ, i ≠ 0 → fdiv v i = FVal.num (v / i)) ∧
    (∀ v : ℚ, 0 < v → fdiv v 0 = FVal.pinf) ∧
    (∀ v : ℚ, v < 0 → fdiv v 0 = FVal.ninf) ∧
    fdiv 0 0 = FVal.nan ∧
    resistances [1/1000, 2/1000, 3/1000] [1/1000000, 2/1000000, 3/1000000] =
      [FVal.num 1000, FVal.num 1000, FVal.num 1000] ∧
    (∀ amp : ℚ, diff_conductance amp 0 = 0) ∧
    (∀ amp r : ℚ, r ≠ 0 → diff_conductance amp r = amp / r) ∧
    (∀ v : ℚ, dc_resistance v 0 = FVal.pinf) ∧
    (∀ r : ℚ, diff_resistance 0 r = FVal.pinf) ∧
    (∀ amp : ℚ, 0 < amp → fund_conductance amp 0 = FVal.pinf) := by
  refine ⟨?_, ?_, ?_, ?_, ?_, ?_, ?_, ?_, ?_, ?_⟩
  · intro v i hi
    simp [fdiv, hi]
  · intro v hv
    simp [fdiv, hv, not_lt.mpr hv.le]
  · intro v hv
    simp [fdiv, hv, not_lt.mpr hv.le]
  · simp [fdiv]
  · norm_num [resistances, fdiv]
  · intro amp
    simp [diff_conductance]
  · intro amp r hr
    simp [diff_conductance, hr]
  · intro v
    simp [dc_resistance]
  · intro r
    simp [diff_resistance]
  · intro amp hamp
    simp [fund_conductance, fdiv, hamp, not_lt.mpr hamp.le]

/-- Witness for C1_division_semantics at concrete inputs. -/
theorem C1_division_semantics_witness :
    fdiv 3 2 = FVal.num (3 / 2) ∧ fdiv 5 0 = FVal.pinf ∧
    fdiv (-5) 0 = FVal.ninf ∧ diff_conductance 7 2 = 7 / 2 ∧
    fund_conductance (1/100) 0 = FVal.pinf :=
  ⟨C1_division_semantics.1 3 2 (by norm_num),
   C1_division_semantics.2.1 5 (by norm_num),
   C1_division_semantics.2.2.1 (-5) (by norm_num),
   C1_division_semantics.2.2.2.2.2.2.1 7 2 (by norm_num),
   C1_division_semantics.2.2.2.2.2.2.2.2.2 (1/100) (by norm_num)⟩

/-- C2 counterexample: the claim asserts every settling wait reports a
timeout as a non-exceptional result; but AMI430 wait_for_ramp_completion
raises TimeoutError (modelled as Except.error) when the status never reaches
HOLDING within the budget. -/
theorem C2_counterexample :
    wait_for_ramp_completion (fun _ => false) 3 0 = Except.error () ∧
    ∀ u, wait_for_ramp_completion (fun _ => false) 3 0 ≠ Except.ok u := by
  refine ⟨rfl, ?_⟩
  intro u h
  simp [wait_for_ramp_completion] at h

/-- C2 amended: the temperature wait returns the value False on timeout (a
reported, non-fatal result, True on settling), while the magnet ramp wait
instead raises TimeoutError when the timeout budget is exhausted. -/
theorem C2_settling_timeout :
    (∀ (readings : ℕ → ℚ) (target tol : ℚ) (fuel i : ℕ),
        (∀ j, ¬ |readings j - target| ≤ tol) →
        wait_for_temperature readings target tol fuel i = false) ∧
    (∀ (readings : ℕ → ℚ) (target tol : ℚ) (fuel i : ℕ),
        |readings i - target| ≤ tol →
        wait_for_temperature readings target tol (fuel + 1) i = true) ∧
    (∀ (holding : ℕ → Bool) (fuel i : ℕ),
        (∀ j, holding j = false) →
        wait_for_ramp_completion holding fuel i = .error ()) := by
  refine ⟨?_, ?_, ?_⟩
  · intro readings target tol fuel
    induction fuel with
    | zero => intro i _; rfl
    | succ m ih =>
        intro i hnone
        rw [wait_for_temperature, if_neg (hnone i)]
        exact ih (i + 1) hnone
  · intro readings target tol fuel i hset
    rw [wait_for_temperature, if_pos hset]
  · intro holding fuel
    induction fuel with
    | zero => intro i _; rfl
    | succ m ih =>
        intro i hnone
        rw [wait_for_ramp_completion]
        rw [hnone i]
        simp only [Bool.false_eq_true, if_false]
        exact ih (i + 1) hnone

/-- Witness for C2_settling_timeout at concrete traces. -/
theorem C2_settling_timeout_witness :
    wait_for_temperature (fun _ => 100) 0 1 5 0 = false ∧
    wait_for_temperature (fun _ => 100) 100 1 5 0 = true ∧
    wait_for_ramp_completion (fun _ => false) 5 0 = .error () :=
  ⟨C2_settling_timeout.1 (fun _ => 100) 0 1 5 0 (fun _ => by norm_num),
   C2_settling_timeout.2.1 (fun _ => 100) 100 1 4 0 (by norm_num),
   C2_settling_timeout.2.2 (fun _ => false) 5 0 (fun _ => rfl)⟩

/-- Helper for C9: a state with the monitoring flag set is a fixed point of
start_monitoring, for any number of iterations. -/
lemma start_monitoring_fixed (m : ℕ) (s : MonitorState) (h : s.monitoring = true) :
    start_monitoring^[m] s = s := by
  induction m with
  | zero => rfl
  | succ k ih =>
      rw [Function.iterate_succ_apply, start_monitoring, if_pos h, ih]

/-- C9: start_monitoring is idempotent while running: a second call before
stop is a no-op (no instrument configuration, no second worker), so any
positive number of consecutive start calls from an idle state configures the
instruments once and starts exactly one worker. -/
theorem C9_start_monitoring_idempotent :
    (∀ s : MonitorState, s.monitoring = true → start_monitoring s = s) ∧
    (∀ (s : MonitorState) (n : ℕ), s.monitoring = false → 1 ≤ n →
        (start_monitoring^[n] s).worker_starts = s.worker_starts + 1 ∧
        (start_monitoring^[n] s).configured = s.configured + 1) := by
  constructor
  · intro s h
    rw [start_monitoring, if_pos h]
  · intro s n hidle hn
    obtain ⟨k, rfl⟩ : ∃ k, n = k + 1 := ⟨n - 1, by omega⟩
    have hstep : start_monitoring s =
        { monitoring := true
          worker_starts := s.worker_starts + 1
          configured := s.configured + 1 } := by
      rw [start_monitoring]
      simp [hidle]
    rw [Function.iterate_succ_apply, hstep, start_monitoring_fixed k _ rfl]
    exact ⟨rfl, rfl⟩

/-- Witness for C9: three consecutive start calls from the idle state start
exactly one worker and configure exactly once. -/
theorem C9_start_monitoring_idempotent_witness :
    (MonitorState.mk false 0 0).monitoring = false ∧ 1 ≤ 3 ∧
    (start_monitoring^[3] (MonitorState.mk false 0 0)).worker_starts = 0 + 1 ∧
    (start_monitoring^[3] (MonitorState.mk false 0 0)).configured = 0 + 1 :=
  ⟨rfl, by omega,
   C9_start_monitoring_idempotent.2 (MonitorState.mk false 0 0) 3 rfl (by omega)⟩

/-- C10: for every requested vector whose magnitude sqrt(fx² + fy²) exceeds
the driver field_limit 9.0, set_field_vector raises ValueError before issuing
any hardware command: no field component is written and no ramp is started,
so the commanded magnet state is unchanged on this error path. -/
theorem C10_set_field_vector_atomic (fx fy : ℚ)
    (h : Real.sqrt (((fx ^ 2 + fy ^ 2 : ℚ) : ℝ)) > 9) :
    set_field_vector 9 fx fy = ([], .error ()) := by
  have hS : (0 : ℝ) ≤ ((fx ^ 2 + fy ^ 2 : ℚ) : ℝ) := by
    push_cast
    positivity
  have h81 : ((81 : ℚ) : ℝ) < ((fx ^ 2 + fy ^ 2 : ℚ) : ℝ) := by
    have h9 : (9 : ℝ) ^ 2 < ((fx ^ 2 + fy ^ 2 : ℚ) : ℝ) :=
      (Real.lt_sqrt (by norm_num : (0 : ℝ) ≤ 9)).mp h
    calc ((81 : ℚ) : ℝ) = (9 : ℝ) ^ 2 := by norm_num
      _ < _ := h9
  have hq : fx ^ 2 + fy ^ 2 > (9 : ℚ) ^ 2 := by
    have : (81 : ℚ) < fx ^ 2 + fy ^ 2 := by exact_mod_cast h81
    nlinarith
  rw [set_field_vector, if_pos hq]

/-- Witness for C10 at the vector (10, 10), magnitude sqrt 200 > 9. -/
theorem C10_set_field_vector_atomic_witness :
    Real.sqrt (((10 ^ 2 + 10 ^ 2 : ℚ) : ℝ)) > 9 ∧
    set_field_vector 9 10 10 = ([], .error ()) := by
  have h : Real.sqrt (((10 ^ 2 + 10 ^ 2 : ℚ) : ℝ)) > 9 := by
    have h200 : (((10 ^ 2 + 10 ^ 2 : ℚ) : ℝ)) = 200 := by norm_num
    rw [h200]
    exact (Real.lt_sqrt (by norm_num : (0 : ℝ) ≤ 9)).mpr (by norm_num)
  exact ⟨h, C10_set_field_vector_atomic 10 10 h⟩

/-- Value carried by a successful read, defaulting to 0 on an error. -/
def exVal : Except Unit ℚ → ℚ
  | .ok v => v
  | .error _ => 0

/-- Repetition list carried by a successful averaging loop, defaulting to []
on an error. -/
def exReps : Except Unit (List RepData) → List RepData
  | .ok l => l
  | .error _ => []

/-- Helper for C3: when the reads succeed for the first k points and fail at
point k, the per-point loop of IVMeasurement.run_sweep stops with exactly the
samples of the points before k and reports the propagating error. -/
lemma sweep_loop_error (readV : ℕ → Except Unit ℚ) :
    ∀ (points : List ℚ) (i : ℕ) (acc : List (ℚ × ℚ)) (s : SourceState) (k : ℕ),
      k < points.length →
      (∀ j, j < k → ∃ v, readV (i + j) = .ok v) →
      readV (i + k) = .error () →
      (sweep_loop readV points i acc s).1 =
        acc ++ (List.range k).map (fun j => (nth points j, exVal (readV (i + j)))) ∧
      (sweep_loop readV points i acc s).2.1 = true := by
  intro points
  induction points with
  | nil =>
      intro i acc s k hk _ _
      exact absurd hk (by simp)
  | cons c rest ih =>
      intro i acc s k hk hall herr
      cases k with
      | zero =>
          rw [Nat.add_zero] at herr
          simp [sweep_loop, herr]
      | succ k' =>
          obtain ⟨v0, hv0⟩ := hall 0 (Nat.succ_pos k')
          rw [Nat.add_zero] at hv0
          have hstep : sweep_loop readV (c :: rest) i acc s =
              sweep_loop readV rest (i + 1) (acc ++ [(c, v0)]) (set_setpoint s c) := by
            simp [sweep_loop, hv0]
          have ih' := ih (i + 1) (acc ++ [(c, v0)]) (set_setpoint s c) k'
            (by simpa using hk)
            (fun j hj => by
              obtain ⟨v, hv⟩ := hall (j + 1) (Nat.succ_lt_succ hj)
              have hidx : i + 1 + j = i + (j + 1) := by omega
              rw [hidx]
              exact ⟨v, hv⟩)
            (by
              have hidx : i + 1 + k' = i + (k' + 1) := by omega
              rw [hidx]
              exact herr)
          rw [hstep]
          refine ⟨?_, ih'.2⟩
          rw [ih'.1, List.append_assoc, List.singleton_append]
          congr 1
          rw [List.range_succ_eq_map, List.map_cons, List.map_map]
          congr 1
          · rw [Nat.add_zero, hv0]
            simp [nth, exVal]
          · apply List.map_congr_left
            intro j _
            have h1 : nth (c :: rest) (j + 1) = nth rest j := by simp [nth]
            have h2 : i + (j + 1) = i + 1 + j := by omega
            simp [Function.comp, h1, h2]

/-- Helper for C3: the differential per-point loop behaves the same, the
failing unit being the whole averaging loop of one point. -/
lemma diff_sweep_loop_error (amp : ℚ) (av : ℕ) (reads : ℕ → ℕ → Except Unit RepData) :
    ∀ (points : List ℚ) (i : ℕ) (acc : List DiffSample) (s : SourceState) (k : ℕ),
      k < points.length →
      (∀ j, j < k → ∃ reps, collect_reps (reads (i + j)) av 0 = .ok reps) →
      collect_reps (reads (i + k)) av 0 = .error () →
      (diff_sweep_loop amp av reads points i acc s).1 =
        acc ++ (List.range k).map (fun j =>
          make_sample amp (nth points j) (exReps (collect_reps (reads (i + j)) av 0))) ∧
      (diff_sweep_loop amp av reads points i acc s).2.1 = true := by
  intro points
  induction points with
  | nil =>
      intro i acc s k hk _ _
      exact absurd hk (by simp)
  | cons c rest ih =>
      intro i acc s k hk hall herr
      cases k with
      | zero =>
          rw [Nat.add_zero] at herr
          simp [diff_sweep_loop, herr]
      | succ k' =>
          obtain ⟨reps0, hr0⟩ := hall 0 (Nat.succ_pos k')
          rw [Nat.add_zero] at hr0
          have hstep : diff_sweep_loop amp av reads (c :: rest) i acc s =
              diff_sweep_loop amp av reads rest (i + 1)
                (acc ++ [make_sample amp c reps0]) (set_setpoint s c) := by
            simp [diff_sweep_loop, hr0]
          have ih' := ih (i + 1) (acc ++ [make_sample amp c reps0]) (set_setpoint s c) k'
            (by simpa using hk)
            (fun j hj => by
              obtain ⟨reps, hv⟩ := hall (j + 1) (Nat.succ_lt_succ hj)
              have hidx : i + 1 + j = i + (j + 1) := by omega
              rw [hidx]
              exact ⟨reps, hv⟩)
            (by
              have hidx : i + 1 + k' = i + (k' + 1) := by omega
              rw [hidx]
              exact herr)
          rw [hstep]
          refine ⟨?_, ih'.2⟩
          rw [ih'.1, List.append_assoc, List.singleton_append]
          congr 1
          rw [List.range_succ_eq_map, List.map_cons, List.map_map]
          congr 1
          · rw [Nat.add_zero, hr0]
            simp [nth, exReps]
          · apply List.map_congr_left
            intro j _
            have h1 : nth (c :: rest) (j + 1) = nth rest j := by simp [nth]
            have h2 : i + (j + 1) = i + 1 + j := by omega
            simp [Function.comp, h1, h2]

/-- C3: on every exit path of the per-point loop (normal completion or a
hardware error at any point), the finally block leaves the output setpoint
zeroed and the output disabled; and when point k is the first to fail, the
recorded result holds exactly the samples of the points before k, with no
partial sample for the failing point.  Stated for IVMeasurement.run_sweep and
for DifferentialConductance.run_sweep. -/
theorem C3_cleanup_and_no_partial_sample :
    (∀ (points : List ℚ) (readV : ℕ → Except Unit ℚ) (s0 : SourceState),
        (run_sweep points readV s0).final.setpoint = 0 ∧
        (run_sweep points readV s0).final.output_on = false) ∧
    (∀ (amp : ℚ) (av : ℕ) (points : List ℚ)
        (reads : ℕ → ℕ → Except Unit RepData) (s0 : SourceState),
        (run_diff_sweep amp av points reads s0).final.setpoint = 0 ∧
        (run_diff_sweep amp av points reads s0).final.output_on = false) ∧
    (∀ (points : List ℚ) (readV : ℕ → Except Unit ℚ) (s0 : SourceState) (k : ℕ),
        k < points.length →
        (∀ j, j < k → ∃ v, readV j = .ok v) →
        readV k = .error () →
        (run_sweep points readV s0).raised = true ∧
        (run_sweep points readV s0).recorded =
          (List.range k).map (fun j => (nth points j, exVal (readV j)))) ∧
    (∀ (amp : ℚ) (av : ℕ) (points : List ℚ)
        (reads : ℕ → ℕ → Except Unit RepData) (s0 : SourceState) (k : ℕ),
        k < points.length →
        (∀ j, j < k → ∃ reps, collect_reps (reads j) av 0 = .ok reps) →
        collect_reps (reads k) av 0 = .error () →
        (run_diff_sweep amp av points reads s0).raised = true ∧
        (run_diff_sweep amp av points reads s0).recorded =
          (List.range k).map (fun j =>
            make_sample amp (nth points j) (exReps (collect_reps (reads j) av 0)))) := by
  refine ⟨?_, ?_, ?_, ?_⟩
  · intro points readV s0
    exact ⟨rfl, rfl⟩
  · intro amp av points reads s0
    exact ⟨rfl, rfl⟩
  · intro points readV s0 k hk hall herr
    have h := sweep_loop_error readV points 0 [] (set_output s0 true) k hk
      (fun j hj => by simpa using hall j hj) (by simpa using herr)
    exact ⟨h.2, by simpa using h.1⟩
  · intro amp av points reads s0 k hk hall herr
    have h := diff_sweep_loop_error amp av reads points 0 [] (set_output s0 true) k hk
      (fun j hj => by simpa using hall j hj) (by simpa using herr)
    exact ⟨h.2, by simpa using h.1⟩

/-- Witness for C3: a two-point sweep whose second voltage read fails records
exactly the first sample and exits with the setpoint zeroed and the output
disabled; a one-point differential sweep whose first repetition fails records
nothing. -/
theorem C3_cleanup_and_no_partial_sample_witness :
    (run_sweep [1, 2] (fun n => if n = 0 then .ok 7 else .error ())
        (SourceState.mk 5 false)).final.setpoint = 0 ∧
    (run_sweep [1, 2] (fun n => if n = 0 then .ok 7 else .error ())
        (SourceState.mk 5 false)).final.output_on = false ∧
    (run_sweep [1, 2] (fun n => if n = 0 then .ok 7 else .error ())
        (SourceState.mk 5 false)).raised = true ∧
    (run_sweep [1, 2] (fun n => if n = 0 then .ok 7 else .error ())
        (SourceState.mk 5 false)).recorded =
      (List.range 1).map (fun j =>
        (nth [1, 2] j, exVal ((fun n : ℕ => if n = 0 then .ok 7 else .error ()) j))) := by
  have hfin := C3_cleanup_and_no_partial_sample.1 [1, 2]
    (fun n => if n = 0 then .ok 7 else .error ()) (SourceState.mk 5 false)
  have herr := C3_cleanup_and_no_partial_sample.2.2.1 [1, 2]
    (fun n => if n = 0 then .ok 7 else .error ()) (SourceState.mk 5 false) 1
    (by norm_num)
    (fun j hj => ⟨7, by interval_cases j <;> rfl⟩)
    rfl
  exact ⟨hfin.1, hfin.2, herr.1, herr.2⟩

end BlueforsDC
